import Mathlib

/-!
# Verification of `watcher/objects/action_plan.py`

A shallow embedding of the ActionPlan persistent-entity lifecycle manager.
The entity file itself (`src/watcher/objects/action_plan.py`) is embedded
faithfully; its collaborators (`watcher.objects.base` change tracking,
`watcher.db.api`, the `Action`, `EfficacyIndicator`, `Audit` and `Strategy`
entities, and `watcher.common.utils` identifier classifiers) are not part of
the repository under `src/` and are modelled from the specification, as
marked in their doc comments.

Storage is modelled as an explicit in-memory database value threaded through
each operation; every storage call additionally emits an `Event` so that the
ordering of collaborator calls within one lifecycle operation is observable.
-/

namespace Watcher

-- Lifecycle states, from `class State` in the source (lines 80-87).
namespace State

def RECOMMENDED : String := "RECOMMENDED"

def PENDING : String := "PENDING"

def ONGOING : String := "ONGOING"

def FAILED : String := "FAILED"

def SUCCEEDED : String := "SUCCEEDED"

def DELETED : String := "DELETED"

def CANCELLED : String := "CANCELLED"

/-- The closed set of the seven lifecycle state values declared by `class State`. -/
def values : List String :=
  [RECOMMENDED, PENDING, ONGOING, FAILED, SUCCEEDED, DELETED, CANCELLED]

end State

/-- The persisted columns of an ActionPlan row, from the `fields` dict of the
source (lines 101-112), excluding the two derived, non-persisted relationship
fields `audit` and `strategy`.  `global_efficacy` is a flexible dict, modelled
as an association list. -/
structure ActionPlanRow where
  id : Nat
  uuid : String
  audit_id : Nat
  strategy_id : Nat
  first_action_id : Option Nat
  state : Option String
  global_efficacy : Option (List (String × String))
deriving DecidableEq, Repr

/-- Modelled from the spec: an Audit row, the upstream entity referenced by
`audit_id`; only its identity matters to this core. -/
structure AuditRow where
  id : Nat
  uuid : String
deriving DecidableEq, Repr

/-- Modelled from the spec: a Strategy row, referenced by `strategy_id`. -/
structure StrategyRow where
  id : Nat
  uuid : String
deriving DecidableEq, Repr

/-- Modelled from the spec: an Action row; a dependent entity carrying
`action_plan_uuid` and a storage-level soft-delete flag. -/
structure ActionRow where
  uuid : String
  action_plan_uuid : String
  deleted : Bool
deriving DecidableEq, Repr

/-- Modelled from the spec: an EfficacyIndicator row; a dependent entity
carrying `action_plan_uuid` and a storage-level soft-delete flag. -/
structure EfficacyIndicatorRow where
  uuid : String
  action_plan_uuid : String
  deleted : Bool
deriving DecidableEq, Repr

/-- A stored ActionPlan row together with its storage-level soft-delete flag. -/
structure StoredPlan where
  row : ActionPlanRow
  deleted : Bool
deriving DecidableEq, Repr

/-- Modelled from the spec: the storage collaborator's visible state — the
tables this core reads and writes. -/
structure Db where
  plans : List StoredPlan
  actions : List ActionRow
  indicators : List EfficacyIndicatorRow
  audits : List AuditRow
  strategies : List StrategyRow
  next_id : Nat
deriving DecidableEq, Repr

/-- The error taxonomy of the spec that this embedding needs:
`InvalidIdentity` carries the offending key, `NotFound` names what was
missing. -/
inductive Err where
  | invalidIdentity (identity : String)
  | notFound (what : String)
deriving DecidableEq, Repr

/-- Field names of the ActionPlan entity, from the `fields` dict of the
source (lines 101-112). -/
inductive FieldName where
  | id
  | uuid
  | audit_id
  | strategy_id
  | first_action_id
  | state
  | global_efficacy
  | audit
  | strategy
deriving DecidableEq, Repr

/-- A dynamic field value, covering every declared field's type. -/
inductive Value where
  | vint (n : Nat)
  | vuuid (s : String)
  | voptInt (n : Option Nat)
  | voptStr (s : Option String)
  | voptDict (d : Option (List (String × String)))
  | voptAudit (a : Option AuditRow)
  | voptStrategy (s : Option StrategyRow)
deriving DecidableEq, Repr

/-- The in-memory ActionPlan object: the mirror of the persisted row, the two
derived relationship fields (`none` = not materialized), and the
change-tracked field set. -/
structure ActionPlanObj where
  row : ActionPlanRow
  audit : Option AuditRow
  strategy : Option StrategyRow
  changes : List FieldName
deriving DecidableEq, Repr

/-- Events emitted by storage-collaborator calls, recording the observable
call order within one lifecycle operation. -/
inductive Event where
  | softDeleteAction (uuid : String)
  | softDeleteIndicator (uuid : String)
  | destroyIndicator (uuid : String)
  | updatePlan (uuid : String) (updates : List (FieldName × Value))
  | softDeletePlanRow (uuid : String)
  | destroyPlanRow (uuid : String)
  | createPlanRow (uuid : String)
deriving DecidableEq, Repr

/-! ## Identifier classification (`watcher.common.utils`) -/

/-- Hexadecimal digit test. -/
def isHexChar (c : Char) : Bool :=
  c.isDigit || ('a' ≤ c && c ≤ 'f') || ('A' ≤ c && c ≤ 'F')

/-- Modelled from the spec: `utils.is_int_like` (from `watcher.common.utils`,
not under `src/`) — a valid numeric string: nonempty and all decimal digits. -/
def is_int_like (s : String) : Bool :=
  !s.data.isEmpty && s.data.all Char.isDigit

/-- Modelled from the spec: `utils.is_uuid_like` (from `watcher.common.utils`,
not under `src/`) — a canonical UUID string: 36 characters, hyphens at
positions 8, 13, 18 and 23, hexadecimal digits everywhere else. -/
def is_uuid_like (s : String) : Bool :=
  s.data.length == 36 &&
  (List.range 36).all (fun i =>
    if i == 8 || i == 13 || i == 18 || i == 23 then s.data[i]? == some '-'
    else (s.data[i]?.elim false isHexChar))

/-! ## Change-tracked record (`watcher.objects.base`) -/

/-- Whether a field is a persisted column (`True`) or one of the two derived
relationship fields listed in `object_fields` (`False`). -/
def FieldName.isPersisted : FieldName → Bool
  | .audit => false
  | .strategy => false
  | _ => true

/-- Whether a value has the declared type of a field (lines 101-112 of the
source declare the field types). -/
def wellTyped : FieldName → Value → Bool
  | .id, .vint _ => true
  | .uuid, .vuuid _ => true
  | .audit_id, .vint _ => true
  | .strategy_id, .vint _ => true
  | .first_action_id, .voptInt _ => true
  | .state, .voptStr _ => true
  | .global_efficacy, .voptDict _ => true
  | .audit, .voptAudit _ => true
  | .strategy, .voptStrategy _ => true
  | _, _ => false

/-- Read one declared field of the in-memory object as a dynamic value. -/
def getField (self : ActionPlanObj) : FieldName → Value
  | .id => .vint self.row.id
  | .uuid => .vuuid self.row.uuid
  | .audit_id => .vint self.row.audit_id
  | .strategy_id => .vint self.row.strategy_id
  | .first_action_id => .voptInt self.row.first_action_id
  | .state => .voptStr self.row.state
  | .global_efficacy => .voptDict self.row.global_efficacy
  | .audit => .voptAudit self.audit
  | .strategy => .voptStrategy self.strategy

/-- Read one persisted column of a row as a dynamic value (relationship
fields are not columns and read as unmaterialized). -/
def getRowField (r : ActionPlanRow) : FieldName → Value
  | .id => .vint r.id
  | .uuid => .vuuid r.uuid
  | .audit_id => .vint r.audit_id
  | .strategy_id => .vint r.strategy_id
  | .first_action_id => .voptInt r.first_action_id
  | .state => .voptStr r.state
  | .global_efficacy => .voptDict r.global_efficacy
  | .audit => .voptAudit none
  | .strategy => .voptStrategy none

/-- Apply one well-typed column value to a row; relationship fields and
ill-typed values leave the row unchanged. -/
def applyUpdate (r : ActionPlanRow) : FieldName × Value → ActionPlanRow
  | (.id, .vint n) => { r with id := n }
  | (.uuid, .vuuid s) => { r with uuid := s }
  | (.audit_id, .vint n) => { r with audit_id := n }
  | (.strategy_id, .vint n) => { r with strategy_id := n }
  | (.first_action_id, .voptInt n) => { r with first_action_id := n }
  | (.state, .voptStr s) => { r with state := s }
  | (.global_efficacy, .voptDict d) => { r with global_efficacy := d }
  | _ => r

/-- Record a field as changed, keeping the change set duplicate-free and in
first-mutation order. -/
def addChange (f : FieldName) (cs : List FieldName) : List FieldName :=
  if f ∈ cs then cs else cs ++ [f]

/-- Modelled from the spec: attribute assignment on a change-tracked record
(`watcher.objects.base`, not under `src/`) — a well-typed assignment updates
the field and marks it changed; an ill-typed assignment is rejected and
changes nothing. -/
def setField (self : ActionPlanObj) (f : FieldName) (v : Value) : ActionPlanObj :=
  if wellTyped f v then
    let self' : ActionPlanObj :=
      match f, v with
      | .audit, .voptAudit a => { self with audit := a }
      | .strategy, .voptStrategy s => { self with strategy := s }
      | _, _ => { self with row := applyUpdate self.row (f, v) }
    { self' with changes := addChange f self.changes }
  else self

/-- Modelled from the spec: `obj_get_changes` (`watcher.objects.base`, not
under `src/`) — the mapping from each field mutated since the last reset to
its current value; unmodified fields are never included. -/
def obj_get_changes (self : ActionPlanObj) : List (FieldName × Value) :=
  self.changes.map (fun f => (f, getField self f))

/-- Modelled from the spec: `obj_reset_changes` (`watcher.objects.base`, not
under `src/`) — empties the change set. -/
def obj_reset_changes (self : ActionPlanObj) : ActionPlanObj :=
  { self with changes := [] }

/-- Modelled from the spec: `obj_refresh` (`watcher.objects.base`, not under
`src/`) — overlays every persisted field from the freshly loaded object onto
`self`, silently discarding unpersisted local changes. -/
def obj_refresh (self loaded : ActionPlanObj) : ActionPlanObj :=
  { self with row := loaded.row, changes := [] }

/-! ## Storage collaborator (`watcher.db.api`) and related-entity accessors -/

/-- Modelled from the spec: `Action.list` with the `action_plan_uuid` filter —
returns the non-soft-deleted Action rows related to the plan. -/
def actionList (db : Db) (action_plan_uuid : String) : List ActionRow :=
  db.actions.filter (fun a => !a.deleted && a.action_plan_uuid == action_plan_uuid)

/-- Modelled from the spec: `EfficacyIndicator.list` with the
`action_plan_uuid` filter — returns the non-soft-deleted indicator rows
related to the plan. -/
def indicatorList (db : Db) (action_plan_uuid : String) : List EfficacyIndicatorRow :=
  db.indicators.filter (fun i => !i.deleted && i.action_plan_uuid == action_plan_uuid)

/-- Modelled from the spec: `Action.soft_delete` on one dependent — marks the
Action row soft-deleted at the storage level. -/
def softDeleteActionRow (db : Db) (uuid : String) : Db :=
  let upd := fun (a : ActionRow) =>
    if a.uuid == uuid then { a with deleted := true } else a
  { db with actions := db.actions.map upd }

/-- Modelled from the spec: `EfficacyIndicator.soft_delete` on one dependent —
marks the indicator row soft-deleted at the storage level. -/
def softDeleteIndicatorRow (db : Db) (uuid : String) : Db :=
  let upd := fun (i : EfficacyIndicatorRow) =>
    if i.uuid == uuid then { i with deleted := true } else i
  { db with indicators := db.indicators.map upd }

/-- Modelled from the spec: `EfficacyIndicator.destroy` on one dependent —
physically removes the indicator row. -/
def destroyIndicatorRow (db : Db) (uuid : String) : Db :=
  { db with indicators := db.indicators.filter (fun i => !(i.uuid == uuid)) }

/-- The cascade loop of `soft_delete` over the related Actions (lines
247-248): soft-delete each in list order, emitting one event per call. -/
def softDeleteActions (db : Db) (l : List ActionRow) : Db × List Event :=
  l.foldl (fun acc a =>
    (softDeleteActionRow acc.1 a.uuid, acc.2 ++ [.softDeleteAction a.uuid])) (db, [])

/-- The cascade loop of `soft_delete` over the related indicators (lines
255-256): soft-delete each in list order, emitting one event per call. -/
def softDeleteIndicators (db : Db) (l : List EfficacyIndicatorRow) : Db × List Event :=
  l.foldl (fun acc i =>
    (softDeleteIndicatorRow acc.1 i.uuid, acc.2 ++ [.softDeleteIndicator i.uuid])) (db, [])

/-- The cascade loop of `destroy` over the related indicators (lines
208-209): hard-delete each in list order, emitting one event per call. -/
def destroyIndicators (db : Db) (l : List EfficacyIndicatorRow) : Db × List Event :=
  l.foldl (fun acc i =>
    (destroyIndicatorRow acc.1 i.uuid, acc.2 ++ [.destroyIndicator i.uuid])) (db, [])

/-- The first non-soft-deleted plan row with the given uuid, if any. -/
def planRowByUuid (db : Db) (uuid : String) : Option ActionPlanRow :=
  (db.plans.find? (fun p => !p.deleted && p.row.uuid == uuid)).map (·.row)

/-- The first non-soft-deleted plan row with the given id, if any. -/
def planRowById (db : Db) (i : Nat) : Option ActionPlanRow :=
  (db.plans.find? (fun p => !p.deleted && p.row.id == i)).map (·.row)

/-- Modelled from the spec: `dbapi.get_action_plan_by_uuid` — a required
lookup that reports not-found distinctly. -/
def dbGetActionPlanByUuid (db : Db) (uuid : String) : Except Err ActionPlanRow :=
  match planRowByUuid db uuid with
  | some r => .ok r
  | none => .error (.notFound uuid)

/-- Modelled from the spec: `dbapi.get_action_plan_by_id`. -/
def dbGetActionPlanById (db : Db) (i : Nat) : Except Err ActionPlanRow :=
  match planRowById db i with
  | some r => .ok r
  | none => .error (.notFound (Nat.repr i))

/-- Modelled from the spec: `dbapi.create_action_plan` — builds a row from
the supplied field values, lets storage assign the numeric `id`, inserts the
row and returns it. -/
def dbCreateActionPlan (db : Db) (values : List (FieldName × Value)) :
    ActionPlanRow × Db :=
  let base : ActionPlanRow :=
    { id := 0, uuid := "", audit_id := 0, strategy_id := 0,
      first_action_id := none, state := none, global_efficacy := none }
  let r0 := values.foldl applyUpdate base
  let r := { r0 with id := db.next_id }
  (r, { db with plans := ⟨r, false⟩ :: db.plans, next_id := db.next_id + 1 })

/-- Modelled from the spec: `dbapi.update_action_plan` — finds the live row
by uuid, applies exactly the supplied column delta to it, stores and returns
the authoritative updated row. -/
def dbUpdateActionPlan (db : Db) (uuid : String) (updates : List (FieldName × Value)) :
    Except Err (ActionPlanRow × Db) :=
  match planRowByUuid db uuid with
  | none => .error (.notFound uuid)
  | some r0 =>
    let r := updates.foldl applyUpdate r0
    let upd := fun (p : StoredPlan) =>
      if !p.deleted && p.row.uuid == uuid then { p with row := r } else p
    .ok (r, { db with plans := db.plans.map upd })

/-- Modelled from the spec: `dbapi.soft_delete_action_plan` — finds the live
row by uuid, marks it soft-deleted and returns the row. -/
def dbSoftDeleteActionPlan (db : Db) (uuid : String) :
    Except Err (ActionPlanRow × Db) :=
  match planRowByUuid db uuid with
  | none => .error (.notFound uuid)
  | some r =>
    let upd := fun (p : StoredPlan) =>
      if !p.deleted && p.row.uuid == uuid then { p with deleted := true } else p
    .ok (r, { db with plans := db.plans.map upd })

/-- Modelled from the spec: `dbapi.destroy_action_plan` — removes the row by
uuid, reporting not-found when no such row exists. -/
def dbDestroyActionPlan (db : Db) (uuid : String) : Except Err Db :=
  if (db.plans.find? (fun p => p.row.uuid == uuid)).isSome then
    .ok { db with plans := db.plans.filter (fun p => !(p.row.uuid == uuid)) }
  else .error (.notFound uuid)

/-! ## Hydration (`_from_db_object` of `watcher.objects.base`) -/

/-- A blank in-memory object, as constructed by `cls(context)`. -/
def ActionPlanObj.blank : ActionPlanObj :=
  { row := { id := 0, uuid := "", audit_id := 0, strategy_id := 0,
             first_action_id := none, state := none, global_efficacy := none },
    audit := none, strategy := none, changes := [] }

/-- Modelled from the spec: `_from_db_object` (`watcher.objects.base`, not
under `src/`) — copies every persisted column from the row onto the object
and resets the change set; with `eager = true` it additionally materializes
`audit` and `strategy` from their id fields, failing with a not-found error
when a referenced related entity no longer exists. -/
def from_db_object (self : ActionPlanObj) (dbRow : ActionPlanRow) (eager : Bool)
    (db : Db) : Except Err ActionPlanObj :=
  let obj : ActionPlanObj := { self with row := dbRow, changes := [] }
  if eager then
    match db.audits.find? (fun a => a.id == dbRow.audit_id),
          db.strategies.find? (fun s => s.id == dbRow.strategy_id) with
    | some a, some s => .ok { obj with audit := some a, strategy := some s }
    | none, _ => .error (.notFound "audit")
    | _, none => .error (.notFound "strategy")
  else .ok obj

/-! ## The ActionPlan entity methods (source lines 119-263) -/

namespace ActionPlan

/-- `ActionPlan.get_by_id` (source lines 134-146): fetch the row by numeric
id and hydrate a fresh object from it. -/
def get_by_id (db : Db) (action_plan_id : Nat) (eager : Bool) :
    Except Err ActionPlanObj := do
  let db_action_plan ← dbGetActionPlanById db action_plan_id
  from_db_object ActionPlanObj.blank db_action_plan eager db

/-- `ActionPlan.get_by_uuid` (source lines 148-161): fetch the row by uuid
and hydrate a fresh object from it. -/
def get_by_uuid (db : Db) (uuid : String) (eager : Bool) :
    Except Err ActionPlanObj := do
  let db_action_plan ← dbGetActionPlanByUuid db uuid
  from_db_object ActionPlanObj.blank db_action_plan eager db

/-- `ActionPlan.get` (source lines 119-132): classify the key as integer-like
or UUID-like and dispatch to the matching lookup; otherwise raise
`InvalidIdentity` carrying the offending value. -/
def get (db : Db) (action_plan_id : String) (eager : Bool) :
    Except Err ActionPlanObj :=
  if is_int_like action_plan_id then
    get_by_id db (action_plan_id.toNat?.getD 0) eager
  else if is_uuid_like action_plan_id then
    get_by_uuid db action_plan_id eager
  else
    .error (.invalidIdentity action_plan_id)

/-- `ActionPlan.create` (source lines 188-198): persist the full current
change set, then always re-hydrate eagerly from the returned row. -/
def create (self : ActionPlanObj) (db : Db) :
    Except Err (ActionPlanObj × Db × List Event) := do
  let values := obj_get_changes self
  let (db_action_plan, db1) := dbCreateActionPlan db values
  let self1 ← from_db_object self db_action_plan true db1
  .ok (self1, db1, [.createPlanRow db_action_plan.uuid])

/-- `ActionPlan.destroy` (source lines 200-212): list the related efficacy
indicators, hard-delete each, hard-delete this row, then reset the local
change set. -/
def destroy (self : ActionPlanObj) (db : Db) :
    Except Err (ActionPlanObj × Db × List Event) := do
  let related_efficacy_indicators := indicatorList db self.row.uuid
  let (db1, trI) := destroyIndicators db related_efficacy_indicators
  let db2 ← dbDestroyActionPlan db1 self.row.uuid
  let self1 := obj_reset_changes self
  .ok (self1, db2, trI ++ [.destroyPlanRow self.row.uuid])

/-- `ActionPlan.save` (source lines 214-225): compute the delta, ask storage
to apply exactly those columns, replace the in-memory state from the
authoritative returned row, then clear the change set. -/
def save (self : ActionPlanObj) (db : Db) :
    Except Err (ActionPlanObj × Db × List Event) := do
  let updates := obj_get_changes self
  let (db_obj, db1) ← dbUpdateActionPlan db self.row.uuid updates
  let obj ← from_db_object self db_obj false db1
  let self1 := obj_refresh obj obj
  let self2 := obj_reset_changes self1
  .ok (self2, db1, [.updatePlan self.row.uuid updates])

/-- `ActionPlan.refresh` (source lines 227-237): reload by uuid and overlay
every persisted field from the loaded object onto `self`. -/
def refresh (self : ActionPlanObj) (db : Db) (eager : Bool) :
    Except Err ActionPlanObj := do
  let current ← get_by_uuid db self.row.uuid eager
  .ok (obj_refresh self current)

/-- `ActionPlan.soft_delete` (source lines 239-263): cascade soft-delete of
the related Actions, then of the related EfficacyIndicators, then set this
plan's state to DELETED and persist it via `save`, then issue the
storage-level soft-delete on this row and re-hydrate `self` from the
returned row. -/
def soft_delete (self : ActionPlanObj) (db : Db) :
    Except Err (ActionPlanObj × Db × List Event) := do
  let related_actions := actionList db self.row.uuid
  let (db1, trA) := softDeleteActions db related_actions
  let related_efficacy_indicators := indicatorList db1 self.row.uuid
  let (db2, trI) := softDeleteIndicators db1 related_efficacy_indicators
  let self1 := setField self .state (.voptStr (some State.DELETED))
  let (self2, db3, trS) ← save self1 db2
  let (db_obj, db4) ← dbSoftDeleteActionPlan db3 self2.row.uuid
  let obj ← from_db_object ActionPlanObj.blank db_obj false db4
  let self3 := obj_refresh self2 obj
  .ok (self3, db4, trA ++ trI ++ trS ++ [.softDeletePlanRow self2.row.uuid])

end ActionPlan

/-! ## Concrete fixtures used by the witnesses -/

/-- A concrete plan uuid in canonical form. -/
def uuidP : String := "12345678-1234-1234-1234-123456789abc"

/-- A second concrete plan uuid, used by the creation round-trip. -/
def uuidQ : String := "deadbeef-dead-beef-dead-beefdeadbeef"

/-- A concrete Audit row. -/
def audit1 : AuditRow := { id := 1, uuid := "aaaaaaaa-0000-0000-0000-000000000000" }

/-- A concrete Strategy row. -/
def strategy1 : StrategyRow := { id := 2, uuid := "bbbbbbbb-0000-0000-0000-000000000000" }

/-- A concrete persisted plan row. -/
def planRow0 : ActionPlanRow :=
  { id := 7, uuid := uuidP, audit_id := 1, strategy_id := 2,
    first_action_id := none, state := some State.PENDING, global_efficacy := none }

/-- A concrete database: one live plan, two related and one unrelated Action,
two related EfficacyIndicators, plus the referenced Audit and Strategy. -/
def db0 : Db :=
  { plans := [⟨planRow0, false⟩],
    actions := [⟨"act-1", uuidP, false⟩, ⟨"act-2", uuidP, false⟩,
                ⟨"act-other", "99999999-9999-9999-9999-999999999999", false⟩],
    indicators := [⟨"ind-1", uuidP, false⟩, ⟨"ind-2", uuidP, false⟩],
    audits := [audit1],
    strategies := [strategy1],
    next_id := 10 }

/-- The hydrated in-memory object for `planRow0`, with no pending changes. -/
def obj0 : ActionPlanObj :=
  { row := planRow0, audit := none, strategy := none, changes := [] }

/-- A transient (never persisted) plan object whose change set is everything
set so far, as before a `create` call. -/
def transient0 : ActionPlanObj :=
  { row := { id := 0, uuid := uuidQ, audit_id := 1, strategy_id := 2,
             first_action_id := none, state := some State.RECOMMENDED,
             global_efficacy := none },
    audit := none, strategy := none,
    changes := [.uuid, .audit_id, .strategy_id, .state] }

/-- The spec's uuid-uniqueness invariant: `uuid` is unique across all
ActionPlans held by storage. -/
def uuidUnique (db : Db) : Prop :=
  ∀ p ∈ db.plans, ∀ q ∈ db.plans, p.row.uuid = q.row.uuid → p = q

/-! ## Helper lemmas -/

theorem is_int_like_eq_false_of_uuid_like {s : String} (h : is_uuid_like s = true) :
    is_int_like s = false := by
  unfold is_uuid_like at h
  rw [Bool.and_eq_true] at h
  obtain ⟨-, hall⟩ := h
  rw [List.all_eq_true] at hall
  have h8 := hall 8 (List.mem_range.mpr (by norm_num))
  simp only [show ((8 == 8 || 8 == 13 || 8 == 18 || 8 == 23) = true) from rfl,
    if_pos, beq_iff_eq] at h8
  by_contra hc
  rw [Bool.not_eq_false] at hc
  unfold is_int_like at hc
  rw [Bool.and_eq_true, List.all_eq_true] at hc
  have hmem : '-' ∈ s.data := List.getElem?_mem h8
  have := hc.2 _ hmem
  simp [Char.isDigit] at this

theorem getField_setField_eq {o : ActionPlanObj} {f : FieldName} {v : Value}
    (hw : wellTyped f v = true) : getField (setField o f v) f = v := by
  cases f <;> cases v <;> simp_all [wellTyped, setField, applyUpdate, getField]

theorem setField_changes {o : ActionPlanObj} {f : FieldName} {v : Value}
    (hw : wellTyped f v = true) :
    (setField o f v).changes = addChange f o.changes := by
  cases f <;> cases v <;> simp_all [wellTyped, setField]

theorem getField_eq_of_row_eq {o o' : ActionPlanObj} (h : o.row = o'.row)
    {f : FieldName} (hp : f.isPersisted = true) : getField o f = getField o' f := by
  cases f <;> simp_all [getField, FieldName.isPersisted]

theorem getRowField_applyUpdate_ne (r : ActionPlanRow) (g f : FieldName) (v : Value)
    (h : f ≠ g) : getRowField (applyUpdate r (g, v)) f = getRowField r f := by
  cases g <;> cases v <;> cases f <;> simp_all [applyUpdate, getRowField]

theorem getRowField_applyUpdate_self (r : ActionPlanRow) (f : FieldName) (v : Value)
    (hp : f.isPersisted = true) (hw : wellTyped f v = true) :
    getRowField (applyUpdate r (f, v)) f = v := by
  cases f <;> cases v <;> simp_all [applyUpdate, getRowField, wellTyped, FieldName.isPersisted]

theorem foldl_applyUpdate_frame :
    ∀ (ups : List (FieldName × Value)) (r : ActionPlanRow) (f : FieldName),
      f ∉ ups.map Prod.fst →
      getRowField (ups.foldl applyUpdate r) f = getRowField r f := by
  intro ups
  induction ups with
  | nil => intro r f _; rfl
  | cons gv t ih =>
    intro r f h
    obtain ⟨g, v⟩ := gv
    rw [List.map_cons, List.mem_cons] at h
    push_neg at h
    rw [List.foldl_cons, ih _ f h.2]
    exact getRowField_applyUpdate_ne r g f v h.1

theorem foldl_applyUpdate_const :
    ∀ (ups : List (FieldName × Value)) (r : ActionPlanRow) (f : FieldName) (w : Value),
      f.isPersisted = true → wellTyped f w = true →
      (∀ v, (f, v) ∈ ups → v = w) →
      ((f, w) ∈ ups ∨ getRowField r f = w) →
      getRowField (ups.foldl applyUpdate r) f = w := by
  intro ups
  induction ups with
  | nil =>
    intro r f w _ _ _ hd
    rcases hd with hmem | hval
    · exact absurd hmem (List.not_mem_nil _)
    · exact hval
  | cons gv t ih =>
    intro r f w hp hw hall hd
    obtain ⟨g, v⟩ := gv
    rw [List.foldl_cons]
    by_cases hg : f = g
    · subst hg
      have hv : v = w := hall v (List.mem_cons_self _ _)
      subst hv
      refine ih _ f v hp hw (fun v' hv' => hall v' (List.mem_cons_of_mem _ hv')) (Or.inr ?_)
      exact getRowField_applyUpdate_self r f v hp hw
    · have hfr : getRowField (applyUpdate r (g, v)) f = getRowField r f :=
        getRowField_applyUpdate_ne r g f v hg
      refine ih _ f w hp hw (fun v' hv' => hall v' (List.mem_cons_of_mem _ hv')) ?_
      rcases hd with hmem | hval
      · rcases List.mem_cons.mp hmem with heq | hmem'
        · exact absurd (congrArg Prod.fst heq) hg
        · exact Or.inl hmem'
      · exact Or.inr (hfr.trans hval)

theorem planRowByUuid_some_uuid {db : Db} {u : String} {r : ActionPlanRow}
    (h : planRowByUuid db u = some r) : r.uuid = u := by
  unfold planRowByUuid at h
  cases hf : db.plans.find? (fun p => !p.deleted && p.row.uuid == u) with
  | none => rw [hf] at h; simp at h
  | some p =>
    rw [hf] at h
    have hp := List.find?_some hf
    rw [Bool.and_eq_true, beq_iff_eq] at hp
    simp only [Option.map_some'] at h
    cases h
    exact hp.2

theorem softDeleteActions_run :
    ∀ (l : List ActionRow) (db : Db) (evs : List Event),
      List.foldl (fun acc a =>
          (softDeleteActionRow acc.1 a.uuid, acc.2 ++ [Event.softDeleteAction a.uuid])) (db, evs) l
      = ({ db with actions := db.actions.map (fun a =>
            if l.any (fun x => a.uuid == x.uuid) then { a with deleted := true } else a) },
         evs ++ l.map (fun a => Event.softDeleteAction a.uuid)) := by
  intro l
  induction l with
  | nil => intro db evs; simp
  | cons x t ih =>
    intro db evs
    rw [List.foldl_cons, ih]
    refine Prod.ext ?_ ?_
    · show ({ softDeleteActionRow db x.uuid with actions := _ } : Db) = _
      simp only [softDeleteActionRow]
      congr 1
      rw [List.map_map]
      refine List.map_congr_left (fun a _ => ?_)
      simp only [Function.comp_apply]
      by_cases hxa : (a.uuid == x.uuid) = true
      · simp [hxa, List.any_cons]
      · simp only [hxa, if_neg, Bool.false_eq_true, not_false_eq_true, if_false,
          List.any_cons, Bool.false_or]
    · show evs ++ [Event.softDeleteAction x.uuid] ++ _ = _
      simp

theorem softDeleteIndicators_run :
    ∀ (l : List EfficacyIndicatorRow) (db : Db) (evs : List Event),
      List.foldl (fun acc i =>
          (softDeleteIndicatorRow acc.1 i.uuid, acc.2 ++ [Event.softDeleteIndicator i.uuid])) (db, evs) l
      = ({ db with indicators := db.indicators.map (fun i =>
            if l.any (fun x => i.uuid == x.uuid) then { i with deleted := true } else i) },
         evs ++ l.map (fun i => Event.softDeleteIndicator i.uuid)) := by
  intro l
  induction l with
  | nil => intro db evs; simp
  | cons x t ih =>
    intro db evs
    rw [List.foldl_cons, ih]
    refine Prod.ext ?_ ?_
    · show ({ softDeleteIndicatorRow db x.uuid with indicators := _ } : Db) = _
      simp only [softDeleteIndicatorRow]
      congr 1
      rw [List.map_map]
      refine List.map_congr_left (fun i _ => ?_)
      simp only [Function.comp_apply]
      by_cases hxa : (i.uuid == x.uuid) = true
      · simp [hxa, List.any_cons]
      · simp only [hxa, if_neg, Bool.false_eq_true, not_false_eq_true, if_false,
          List.any_cons, Bool.false_or]
    · show evs ++ [Event.softDeleteIndicator x.uuid] ++ _ = _
      simp

theorem destroyIndicators_run :
    ∀ (l : List EfficacyIndicatorRow) (db : Db) (evs : List Event),
      List.foldl (fun acc i =>
          (destroyIndicatorRow acc.1 i.uuid, acc.2 ++ [Event.destroyIndicator i.uuid])) (db, evs) l
      = ({ db with indicators := db.indicators.filter (fun i =>
            !(l.any (fun x => i.uuid == x.uuid))) },
         evs ++ l.map (fun i => Event.destroyIndicator i.uuid)) := by
  intro l
  induction l with
  | nil => intro db evs; simp
  | cons x t ih =>
    intro db evs
    rw [List.foldl_cons, ih]
    refine Prod.ext ?_ ?_
    · show ({ destroyIndicatorRow db x.uuid with indicators := _ } : Db) = _
      simp only [destroyIndicatorRow]
      congr 1
      rw [List.filter_filter]
      refine List.filter_congr (fun i _ => ?_)
      simp [List.any_cons, Bool.not_or, Bool.and_comm]
    · show evs ++ [Event.destroyIndicator x.uuid] ++ _ = _
      simp

theorem soft_deleted_actions_complete (db : Db) (u : String) :
    ∀ a' ∈ db.actions.map (fun a =>
        if (actionList db u).any (fun x => a.uuid == x.uuid) then { a with deleted := true } else a),
      a'.action_plan_uuid = u → a'.deleted = true := by
  intro a' ha' hmatch
  obtain ⟨a0, ha0, heq⟩ := List.mem_map.mp ha'
  by_cases hc : ((actionList db u).any (fun x => a0.uuid == x.uuid)) = true
  · rw [if_pos hc] at heq
    rw [← heq]
  · rw [if_neg hc] at heq
    subst heq
    by_contra hdel
    rw [Bool.not_eq_true] at hdel
    refine hc (List.any_eq_true.mpr ⟨a0, ?_, by simp⟩)
    exact List.mem_filter.mpr ⟨ha0, by simp [hdel, hmatch]⟩

theorem soft_deleted_indicators_complete (db : Db) (u : String) :
    ∀ i' ∈ db.indicators.map (fun i =>
        if (indicatorList db u).any (fun x => i.uuid == x.uuid) then { i with deleted := true } else i),
      i'.action_plan_uuid = u → i'.deleted = true := by
  intro i' hi' hmatch
  obtain ⟨i0, hi0, heq⟩ := List.mem_map.mp hi'
  by_cases hc : ((indicatorList db u).any (fun x => i0.uuid == x.uuid)) = true
  · rw [if_pos hc] at heq
    rw [← heq]
  · rw [if_neg hc] at heq
    subst heq
    by_contra hdel
    rw [Bool.not_eq_true] at hdel
    refine hc (List.any_eq_true.mpr ⟨i0, ?_, by simp⟩)
    exact List.mem_filter.mpr ⟨hi0, by simp [hdel, hmatch]⟩

theorem destroyed_indicators_removed (db : Db) (u : String) :
    ∀ i ∈ indicatorList db u,
      i ∉ db.indicators.filter (fun j => !((indicatorList db u).any (fun x => j.uuid == x.uuid))) := by
  intro i hi hcontra
  have hmem := (List.mem_filter.mp hcontra).2
  rw [Bool.not_eq_true', List.any_eq_false] at hmem
  have := hmem i hi
  simp at this

theorem destroyed_indicators_none_live (db : Db) (u : String) :
    ∀ i ∈ db.indicators.filter (fun j => !((indicatorList db u).any (fun x => j.uuid == x.uuid))),
      ¬(i.action_plan_uuid = u ∧ i.deleted = false) := by
  intro i hi ⟨hmatch, hdel⟩
  obtain ⟨hmem, hflt⟩ := List.mem_filter.mp hi
  rw [Bool.not_eq_true', List.any_eq_false] at hflt
  have hrel : i ∈ indicatorList db u :=
    List.mem_filter.mpr ⟨hmem, by simp [hdel, hmatch]⟩
  have := hflt i hrel
  simp at this

theorem dbUpdate_planRowByUuid {db : Db} {u : String} {ups : List (FieldName × Value)}
    {r : ActionPlanRow} {db1 : Db}
    (h : dbUpdateActionPlan db u ups = .ok (r, db1)) (hru : r.uuid = u) :
    planRowByUuid db1 u = some r := by
  unfold dbUpdateActionPlan at h
  cases h0 : planRowByUuid db u with
  | none => rw [h0] at h; cases h
  | some r0 =>
    rw [h0] at h
    simp only [Except.ok.injEq, Prod.mk.injEq] at h
    obtain ⟨hr, hdb⟩ := h
    subst hdb
    unfold planRowByUuid at h0 ⊢
    simp only
    cases hf : db.plans.find? (fun p => !p.deleted && p.row.uuid == u) with
    | none => rw [hf] at h0; cases h0
    | some p0 =>
      rw [hf] at h0
      simp only [Option.map_some', Option.some.injEq] at h0
      have hp0 := List.find?_some hf
      rw [List.find?_map]
      have hpred : ((fun p => !p.deleted && p.row.uuid == u) ∘ fun p =>
          if !p.deleted && p.row.uuid == u then { p with row := ups.foldl applyUpdate r0 } else p)
          = (fun p : StoredPlan => !p.deleted && p.row.uuid == u) := by
        funext p
        simp only [Function.comp_apply]
        by_cases hp : (!p.deleted && p.row.uuid == u) = true
        · rw [if_pos hp]
          rw [Bool.and_eq_true] at hp
          simp [hp.1, hp.2, hr, hru]
        · rw [if_neg hp]
      rw [hpred, hf]
      rw [Bool.and_eq_true] at hp0
      have h1 : p0.deleted = false := by simpa using hp0.1
      have h2 : p0.row.uuid = u := by simpa using hp0.2
      simp [h1, h2, hr]

theorem from_db_object_false (self : ActionPlanObj) (r : ActionPlanRow) (db : Db) :
    from_db_object self r false db = .ok { self with row := r, changes := [] } := rfl

theorem save_eq_ok {self : ActionPlanObj} {db : Db} {self' : ActionPlanObj} {db' : Db}
    {tr : List Event} :
    ActionPlan.save self db = .ok (self', db', tr) ↔
    ∃ r, dbUpdateActionPlan db self.row.uuid (obj_get_changes self) = .ok (r, db') ∧
      self' = { self with row := r, changes := [] } ∧
      tr = [Event.updatePlan self.row.uuid (obj_get_changes self)] := by
  constructor
  · intro h
    cases hupd : dbUpdateActionPlan db self.row.uuid (obj_get_changes self) with
    | error e =>
      simp only [ActionPlan.save, hupd, bind, Except.bind] at h
      exact Except.noConfusion h
    | ok pr =>
      obtain ⟨r, db1⟩ := pr
      simp only [ActionPlan.save, hupd, bind, Except.bind, from_db_object_false,
        obj_refresh, obj_reset_changes, Except.ok.injEq, Prod.mk.injEq] at h
      obtain ⟨hs, hd, ht⟩ := h
      exact ⟨r, by rw [hd], hs.symm, ht.symm⟩
  · rintro ⟨r, h1, rfl, rfl⟩
    simp only [ActionPlan.save, h1, bind, Except.bind, from_db_object_false,
      obj_refresh, obj_reset_changes]

theorem obj_get_changes_keys (self : ActionPlanObj) :
    (obj_get_changes self).map Prod.fst = self.changes := by
  unfold obj_get_changes
  rw [List.map_map]
  exact (List.map_congr_left fun f _ => rfl).trans (List.map_id _)

/-! ## Claim theorems and witnesses -/

/-- C3: for every string key passed to `get`, an integer-like key resolves
through the by-id lookup path, a UUID-like key resolves through the by-uuid
lookup path, and any other string fails with `InvalidIdentity` carrying the
offending value. -/
theorem get_identifier_resolution (db : Db) (s : String) (e : Bool) :
    (is_int_like s = true →
      ActionPlan.get db s e = ActionPlan.get_by_id db (s.toNat?.getD 0) e) ∧
    (is_uuid_like s = true →
      ActionPlan.get db s e = ActionPlan.get_by_uuid db s e) ∧
    (is_int_like s = false → is_uuid_like s = false →
      ActionPlan.get db s e = .error (.invalidIdentity s)) := by
  refine ⟨fun h => by simp [ActionPlan.get, h], fun h => ?_,
    fun h1 h2 => by simp [ActionPlan.get, h1, h2]⟩
  have hint := is_int_like_eq_false_of_uuid_like h
  simp [ActionPlan.get, hint, h]

/-- Witness for C3 at concrete keys: a numeric key, a canonical UUID key and
a malformed key. -/
theorem get_identifier_resolution_witness :
    ActionPlan.get db0 "7" false = ActionPlan.get_by_id db0 ("7".toNat?.getD 0) false ∧
    ActionPlan.get db0 uuidP false = ActionPlan.get_by_uuid db0 uuidP false ∧
    ActionPlan.get db0 "not-a-key" false = .error (.invalidIdentity "not-a-key") :=
  ⟨(get_identifier_resolution db0 "7" false).1 (by decide),
   (get_identifier_resolution db0 uuidP false).2.1 (by decide),
   (get_identifier_resolution db0 "not-a-key" false).2.2 (by decide) (by decide)⟩

/-- C4: `save` computes the delta of changed fields via `obj_get_changes`,
asks storage to apply exactly that column delta at the plan's uuid, replaces
the in-memory row entirely with the authoritative row returned by storage,
and clears the change set; columns outside the delta keep their stored
values. -/
theorem save_applies_delta (self : ActionPlanObj) (db : Db) (self' : ActionPlanObj)
    (db' : Db) (tr : List Event)
    (h : ActionPlan.save self db = .ok (self', db', tr)) :
    ∃ r, dbUpdateActionPlan db self.row.uuid (obj_get_changes self) = .ok (r, db') ∧
      self'.row = r ∧ self'.audit = self.audit ∧ self'.strategy = self.strategy ∧
      self'.changes = [] ∧
      tr = [Event.updatePlan self.row.uuid (obj_get_changes self)] ∧
      (∀ f : FieldName, f ∉ self.changes →
        ∀ r0, planRowByUuid db self.row.uuid = some r0 →
          getRowField r f = getRowField r0 f) := by
  obtain ⟨r, h1, rfl, rfl⟩ := save_eq_ok.mp h
  refine ⟨r, h1, rfl, rfl, rfl, rfl, rfl, fun f hf r0 h0 => ?_⟩
  unfold dbUpdateActionPlan at h1
  rw [h0] at h1
  simp only [Except.ok.injEq, Prod.mk.injEq] at h1
  rw [← h1.1]
  refine foldl_applyUpdate_frame _ r0 f ?_
  rw [obj_get_changes_keys]
  exact hf

/-- Witness for C4: saving a plan whose `state` was mutated. -/
theorem save_applies_delta_witness :
    ∃ self' db' tr r,
      ActionPlan.save (setField obj0 .state (.voptStr (some State.ONGOING))) db0
        = .ok (self', db', tr) ∧
      dbUpdateActionPlan db0 obj0.row.uuid
          (obj_get_changes (setField obj0 .state (.voptStr (some State.ONGOING))))
        = .ok (r, db') ∧
      self'.row = r ∧ self'.changes = [] := by
  obtain ⟨s, d, t, h⟩ :
      ∃ s d t, ActionPlan.save (setField obj0 .state (.voptStr (some State.ONGOING))) db0
        = .ok (s, d, t) := ⟨_, _, _, rfl⟩
  obtain ⟨r, h1, h2, -, -, h5, -, -⟩ :=
    save_applies_delta (setField obj0 .state (.voptStr (some State.ONGOING))) db0 s d t h
  exact ⟨s, d, t, r, h, h1, h2, h5⟩

/-- C10: `destroy` never mutates any declared entity field of the in-memory
object — the row mirror and both relationship fields are untouched, no state
change or row update happens locally — its only local effect is clearing the
change set. -/
theorem destroy_frame (self : ActionPlanObj) (db : Db) (self' : ActionPlanObj)
    (db' : Db) (tr : List Event)
    (h : ActionPlan.destroy self db = .ok (self', db', tr)) :
    self'.row = self.row ∧ self'.audit = self.audit ∧
    self'.strategy = self.strategy ∧ self'.changes = [] ∧
    (∀ f : FieldName, getField self' f = getField (obj_reset_changes self) f) := by
  unfold ActionPlan.destroy at h
  cases hd : dbDestroyActionPlan (destroyIndicators db (indicatorList db self.row.uuid)).1
      self.row.uuid with
  | error e =>
    simp only [hd, bind, Except.bind] at h
    exact Except.noConfusion h
  | ok db2 =>
    simp only [hd, bind, Except.bind, Except.ok.injEq, Prod.mk.injEq] at h
    obtain ⟨hs, -, -⟩ := h
    rw [← hs]
    exact ⟨rfl, rfl, rfl, rfl, fun f => rfl⟩

/-- Witness for C10: destroying the concrete hydrated plan. -/
theorem destroy_frame_witness :
    ∃ self' db' tr, ActionPlan.destroy obj0 db0 = .ok (self', db', tr) ∧
      self'.row = obj0.row ∧ self'.audit = obj0.audit ∧
      self'.strategy = obj0.strategy ∧ self'.changes = [] := by
  obtain ⟨s, d, t, h⟩ : ∃ s d t, ActionPlan.destroy obj0 db0 = .ok (s, d, t) :=
    ⟨_, _, _, rfl⟩
  obtain ⟨h1, h2, h3, h4, -⟩ := destroy_frame obj0 db0 s d t h
  exact ⟨s, d, t, h, h1, h2, h3, h4⟩

theorem obj_get_changes_of_changes_nil {o : ActionPlanObj} (h : o.changes = []) :
    obj_get_changes o = [] := by
  unfold obj_get_changes
  rw [h]
  rfl

theorem mem_addChange_self (f : FieldName) (cs : List FieldName) : f ∈ addChange f cs := by
  unfold addChange
  by_cases h : f ∈ cs <;> simp [h]

theorem not_mem_addChange {f g : FieldName} {cs : List FieldName} (hfg : f ≠ g)
    (hf : f ∉ cs) : f ∉ addChange g cs := by
  unfold addChange
  by_cases h : g ∈ cs <;> simp [h, hf, hfg]

theorem from_db_object_ok_cases {self : ActionPlanObj} {r : ActionPlanRow} {e : Bool}
    {db : Db} {o : ActionPlanObj} (h : from_db_object self r e db = .ok o) :
    o.row = r ∧ o.changes = [] ∧
    (e = false → o.audit = self.audit ∧ o.strategy = self.strategy) ∧
    (e = true → ∃ a s, db.audits.find? (fun x => x.id == r.audit_id) = some a ∧
      db.strategies.find? (fun x => x.id == r.strategy_id) = some s ∧
      o.audit = some a ∧ o.strategy = some s) := by
  unfold from_db_object at h
  cases e with
  | false =>
    rw [if_neg (by simp)] at h
    simp only [Except.ok.injEq] at h
    rw [← h]
    exact ⟨rfl, rfl, fun _ => ⟨rfl, rfl⟩, fun hc => absurd hc (by simp)⟩
  | true =>
    rw [if_pos rfl] at h
    cases ha : db.audits.find? (fun x => x.id == r.audit_id) with
    | none =>
      cases hs : db.strategies.find? (fun x => x.id == r.strategy_id) with
      | none =>
        rw [ha, hs] at h
        exact Except.noConfusion h
      | some st =>
        rw [ha, hs] at h
        exact Except.noConfusion h
    | some a =>
      cases hs : db.strategies.find? (fun x => x.id == r.strategy_id) with
      | none =>
        rw [ha, hs] at h
        exact Except.noConfusion h
      | some st =>
        rw [ha, hs] at h
        simp only [Except.ok.injEq] at h
        rw [← h]
        exact ⟨rfl, rfl, fun hc => absurd hc (by simp),
          fun _ => ⟨a, st, rfl, rfl, rfl, rfl⟩⟩

theorem dbCreate_snd_plans (db : Db) (ups : List (FieldName × Value)) :
    ((dbCreateActionPlan db ups).2).plans
      = ⟨(dbCreateActionPlan db ups).1, false⟩ :: db.plans := rfl

theorem create_eq_ok {self : ActionPlanObj} {db : Db} {self' : ActionPlanObj} {db' : Db}
    {tr : List Event} (h : ActionPlan.create self db = .ok (self', db', tr)) :
    from_db_object self (dbCreateActionPlan db (obj_get_changes self)).1 true
        (dbCreateActionPlan db (obj_get_changes self)).2 = .ok self' ∧
      db' = (dbCreateActionPlan db (obj_get_changes self)).2 ∧
      tr = [Event.createPlanRow (dbCreateActionPlan db (obj_get_changes self)).1.uuid] := by
  rcases hcr : dbCreateActionPlan db (obj_get_changes self) with ⟨r, db1⟩
  cases hf : from_db_object self r true db1 with
  | error e =>
    simp only [ActionPlan.create, hcr, hf, bind, Except.bind] at h
    exact Except.noConfusion h
  | ok o =>
    simp only [ActionPlan.create, hcr, hf, bind, Except.bind, Except.ok.injEq,
      Prod.mk.injEq] at h
    obtain ⟨ho, hdb, ht⟩ := h
    exact ⟨by rw [ho], hdb.symm, ht.symm⟩

/-- C6: `obj_get_changes` returns an empty mapping after a fresh hydration;
after mutating exactly one field `f` on a clean object it returns exactly
`[(f, newValue)]`; and after `save` or `refresh` it is empty again. -/
theorem obj_get_changes_delta :
    (∀ (self : ActionPlanObj) (r : ActionPlanRow) (e : Bool) (db : Db) (o : ActionPlanObj),
        from_db_object self r e db = .ok o → obj_get_changes o = []) ∧
    (∀ (o : ActionPlanObj) (f : FieldName) (v : Value),
        o.changes = [] → wellTyped f v = true →
        obj_get_changes (setField o f v) = [(f, v)]) ∧
    (∀ (self : ActionPlanObj) (db : Db) (self' : ActionPlanObj) (db' : Db) (tr : List Event),
        ActionPlan.save self db = .ok (self', db', tr) → obj_get_changes self' = []) ∧
    (∀ (self : ActionPlanObj) (db : Db) (e : Bool) (self' : ActionPlanObj),
        ActionPlan.refresh self db e = .ok self' → obj_get_changes self' = []) := by
  refine ⟨fun self r e db o h => ?_, fun o f v hc hw => ?_,
    fun self db self' db' tr h => ?_, fun self db e self' h => ?_⟩
  · exact obj_get_changes_of_changes_nil (from_db_object_ok_cases h).2.1
  · unfold obj_get_changes
    rw [setField_changes hw, hc]
    have ha : addChange f [] = [f] := by simp [addChange]
    rw [ha]
    simp [getField_setField_eq hw]
  · obtain ⟨r, -, rfl, -⟩ := save_eq_ok.mp h
    rfl
  · unfold ActionPlan.refresh at h
    cases hg : ActionPlan.get_by_uuid db self.row.uuid e with
    | error e' =>
      simp only [hg, bind, Except.bind] at h
      exact Except.noConfusion h
    | ok c =>
      simp only [hg, bind, Except.bind, Except.ok.injEq] at h
      rw [← h]
      rfl

/-- Witness for C6: the clean hydrated plan, one `state` mutation, a `save`
and a `refresh` on the concrete database. -/
theorem obj_get_changes_delta_witness :
    obj_get_changes obj0 = [] ∧
    obj_get_changes (setField obj0 .state (.voptStr (some State.ONGOING)))
      = [(.state, .voptStr (some State.ONGOING))] ∧
    (∃ self' db' tr, ActionPlan.save obj0 db0 = .ok (self', db', tr) ∧
      obj_get_changes self' = []) ∧
    (∃ self', ActionPlan.refresh obj0 db0 false = .ok self' ∧
      obj_get_changes self' = []) := by
  obtain ⟨hfresh, hmut, hsave, hrefresh⟩ := obj_get_changes_delta
  refine ⟨?_, hmut obj0 .state (.voptStr (some State.ONGOING)) rfl rfl, ?_, ?_⟩
  · exact hfresh ActionPlanObj.blank planRow0 false db0 obj0 rfl
  · obtain ⟨s, d, t, h⟩ : ∃ s d t, ActionPlan.save obj0 db0 = .ok (s, d, t) :=
      ⟨_, _, _, rfl⟩
    exact ⟨s, d, t, h, hsave obj0 db0 s d t h⟩
  · obtain ⟨s, h⟩ : ∃ s, ActionPlan.refresh obj0 db0 false = .ok s := ⟨_, rfl⟩
    exact ⟨s, h, hrefresh obj0 db0 false s h⟩

/-- C5: `create` persists the full current change set and always re-hydrates
eagerly, so `audit` and `strategy` are fully materialized (consistent with
their id columns) immediately after creation. -/
theorem create_eager_materialization (self : ActionPlanObj) (db : Db)
    (self' : ActionPlanObj) (db' : Db) (tr : List Event)
    (h : ActionPlan.create self db = .ok (self', db', tr)) :
    (self'.row = (dbCreateActionPlan db (obj_get_changes self)).1 ∧
      db' = (dbCreateActionPlan db (obj_get_changes self)).2) ∧
    (∃ a, self'.audit = some a ∧ a.id = self'.row.audit_id) ∧
    (∃ st, self'.strategy = some st ∧ st.id = self'.row.strategy_id) ∧
    self'.changes = [] := by
  obtain ⟨hf, hdb, -⟩ := create_eq_ok h
  obtain ⟨hrow, hch, -, hea⟩ := from_db_object_ok_cases hf
  obtain ⟨a, st, ha, hs, hoa, hos⟩ := hea rfl
  refine ⟨⟨hrow, hdb⟩, ⟨a, hoa, ?_⟩, ⟨st, hos, ?_⟩, hch⟩
  · have hid := List.find?_some ha
    rw [beq_iff_eq] at hid
    rw [hrow]
    exact hid
  · have hid := List.find?_some hs
    rw [beq_iff_eq] at hid
    rw [hrow]
    exact hid

/-- Witness for C5: creating the concrete transient plan materializes both
relationships. -/
theorem create_eager_materialization_witness :
    ∃ self' db' tr, ActionPlan.create transient0 db0 = .ok (self', db', tr) ∧
      (∃ a, self'.audit = some a ∧ a.id = self'.row.audit_id) ∧
      (∃ st, self'.strategy = some st ∧ st.id = self'.row.strategy_id) := by
  obtain ⟨s, d, t, h⟩ : ∃ s d t, ActionPlan.create transient0 db0 = .ok (s, d, t) :=
    ⟨_, _, _, rfl⟩
  obtain ⟨-, ha, hs, -⟩ := create_eager_materialization transient0 db0 s d t h
  exact ⟨s, d, t, h, ha, hs⟩

/-- C9: `create` followed by `get_by_uuid` at the assigned uuid yields an
object whose every persisted field equals the created object's; only the
lazily-loaded relationship fields are unmaterialized. -/
theorem create_get_by_uuid_roundtrip (self : ActionPlanObj) (db : Db)
    (self' : ActionPlanObj) (db' : Db) (tr : List Event)
    (h : ActionPlan.create self db = .ok (self', db', tr)) :
    ∃ o, ActionPlan.get_by_uuid db' self'.row.uuid false = .ok o ∧
      o.row = self'.row ∧
      (∀ f, FieldName.isPersisted f = true → getField o f = getField self' f) ∧
      o.audit = none ∧ o.strategy = none := by
  obtain ⟨hf, hdb, -⟩ := create_eq_ok h
  obtain ⟨hrow, -, -, -⟩ := from_db_object_ok_cases hf
  have hfind : planRowByUuid db' self'.row.uuid
      = some (dbCreateActionPlan db (obj_get_changes self)).1 := by
    rw [hrow, hdb]
    unfold planRowByUuid
    rw [dbCreate_snd_plans, List.find?_cons_of_pos _ (by simp)]
    rfl
  refine ⟨{ ActionPlanObj.blank with
      row := (dbCreateActionPlan db (obj_get_changes self)).1, changes := [] },
    ?_, hrow.symm ▸ rfl, ?_, rfl, rfl⟩
  · unfold ActionPlan.get_by_uuid dbGetActionPlanByUuid
    rw [hfind]
    simp only [bind, Except.bind, from_db_object_false]
  · intro f hp
    exact getField_eq_of_row_eq (by rw [hrow]) hp

/-- Witness for C9: creating the concrete transient plan and reading it back
by uuid. -/
theorem create_get_by_uuid_roundtrip_witness :
    ∃ self' db' tr o, ActionPlan.create transient0 db0 = .ok (self', db', tr) ∧
      ActionPlan.get_by_uuid db' self'.row.uuid false = .ok o ∧
      o.row = self'.row ∧ o.audit = none ∧ o.strategy = none := by
  obtain ⟨s, d, t, h⟩ : ∃ s d t, ActionPlan.create transient0 db0 = .ok (s, d, t) :=
    ⟨_, _, _, rfl⟩
  obtain ⟨o, h1, h2, -, h4, h5⟩ := create_get_by_uuid_roundtrip transient0 db0 s d t h
  exact ⟨s, d, t, o, h, h1, h2, h4, h5⟩

theorem dbUpdate_empty {db : Db} {u : String} {r0 : ActionPlanRow}
    (hu : uuidUnique db) (h0 : planRowByUuid db u = some r0) :
    dbUpdateActionPlan db u [] = .ok (r0, db) := by
  unfold dbUpdateActionPlan
  rw [h0]
  simp only [List.foldl_nil]
  unfold planRowByUuid at h0
  cases hfind : db.plans.find? (fun p => !p.deleted && p.row.uuid == u) with
  | none =>
    rw [hfind] at h0
    cases h0
  | some p0 =>
    rw [hfind] at h0
    simp only [Option.map_some', Option.some.injEq] at h0
    have hp0mem : p0 ∈ db.plans := List.mem_of_find?_eq_some hfind
    have hp0pred := List.find?_some hfind
    have hp0u : p0.row.uuid = u := by
      rw [Bool.and_eq_true, beq_iff_eq] at hp0pred
      exact hp0pred.2
    have hmap : db.plans.map (fun p =>
        if !p.deleted && p.row.uuid == u then { p with row := r0 } else p) = db.plans := by
      refine (List.map_congr_left fun p hp => ?_).trans (List.map_id _)
      by_cases hpred : (!p.deleted && p.row.uuid == u) = true
      · rw [if_pos hpred]
        have hpu : p.row.uuid = u := by
          rw [Bool.and_eq_true, beq_iff_eq] at hpred
          exact hpred.2
        have hpp0 : p = p0 := hu p hp p0 hp0mem (hpu.trans hp0u.symm)
        rw [hpp0, ← h0]
        rfl
      · rw [if_neg hpred]
        rfl
    rw [hmap]

theorem save_of_empty {self : ActionPlanObj} {db : Db} {r0 : ActionPlanRow}
    (hu : uuidUnique db) (hc : self.changes = [])
    (h0 : planRowByUuid db self.row.uuid = some r0) :
    ActionPlan.save self db = .ok ({ self with row := r0, changes := [] }, db,
      [Event.updatePlan self.row.uuid []]) := by
  have hog : obj_get_changes self = [] := obj_get_changes_of_changes_nil hc
  refine save_eq_ok.mpr ⟨r0, ?_, rfl, ?_⟩
  · rw [hog]
    exact dbUpdate_empty hu h0
  · rw [hog]

/-- C8: with an empty change set, `save` is a safe no-op that still
round-trips to storage — it succeeds, leaves the database unchanged, and a
second `save` with no intervening mutation also succeeds and changes
nothing. -/
theorem save_empty_change_set_noop (self : ActionPlanObj) (db : Db) (r0 : ActionPlanRow)
    (hu : uuidUnique db) (hc : self.changes = [])
    (h0 : planRowByUuid db self.row.uuid = some r0) :
    ∃ self' tr tr2, ActionPlan.save self db = .ok (self', db, tr) ∧
      ActionPlan.save self' db = .ok (self', db, tr2) := by
  have h1 := save_of_empty hu hc h0
  have h0' : planRowByUuid db ({ self with row := r0, changes := [] } : ActionPlanObj).row.uuid
      = some r0 := by
    show planRowByUuid db r0.uuid = some r0
    rw [planRowByUuid_some_uuid h0]
    exact h0
  have h2 := save_of_empty hu
    (rfl : ({ self with row := r0, changes := [] } : ActionPlanObj).changes = []) h0'
  exact ⟨_, _, _, h1, h2⟩

/-- Witness for C8: double save of the clean hydrated plan on the concrete
database. -/
theorem save_empty_change_set_noop_witness :
    uuidUnique db0 ∧
    ∃ self' tr tr2, ActionPlan.save obj0 db0 = .ok (self', db0, tr) ∧
      ActionPlan.save self' db0 = .ok (self', db0, tr2) :=
  ⟨by unfold uuidUnique; decide,
   save_empty_change_set_noop obj0 db0 planRow0 (by unfold uuidUnique; decide) rfl
     (by decide)⟩

/-- C2: `destroy` hard-deletes all related EfficacyIndicators first, then
hard-deletes the plan's own row, then resets the local change set; Action
rows are not cascaded on hard delete and remain present and unaffected. -/
theorem destroy_cascade_indicators_only (self : ActionPlanObj) (db : Db)
    (self' : ActionPlanObj) (db' : Db) (tr : List Event)
    (h : ActionPlan.destroy self db = .ok (self', db', tr)) :
    (∀ i ∈ indicatorList db self.row.uuid, i ∉ db'.indicators) ∧
    (∀ i ∈ db'.indicators, ¬(i.action_plan_uuid = self.row.uuid ∧ i.deleted = false)) ∧
    (∀ p ∈ db'.plans, p.row.uuid ≠ self.row.uuid) ∧
    db'.actions = db.actions ∧
    self'.changes = [] ∧
    tr = (indicatorList db self.row.uuid).map (fun i => Event.destroyIndicator i.uuid)
      ++ [Event.destroyPlanRow self.row.uuid] := by
  simp only [ActionPlan.destroy, destroyIndicators, destroyIndicators_run, List.nil_append,
    dbDestroyActionPlan] at h
  split at h
  · simp only [bind, Except.bind, Except.ok.injEq, Prod.mk.injEq] at h
    obtain ⟨hs, hd, ht⟩ := h
    subst hd
    refine ⟨?_, ?_, ?_, rfl, by rw [← hs]; rfl, ht.symm⟩
    · exact destroyed_indicators_removed db self.row.uuid
    · exact destroyed_indicators_none_live db self.row.uuid
    · intro p hp
      have hm := (List.mem_filter.mp hp).2
      simpa using hm
  · simp only [bind, Except.bind] at h
    exact Except.noConfusion h

/-- Witness for C2: destroying the concrete plan removes both related
indicator rows, removes the plan row and leaves all three Action rows in
place. -/
theorem destroy_cascade_indicators_only_witness :
    ∃ self' db' tr, ActionPlan.destroy obj0 db0 = .ok (self', db', tr) ∧
      (∀ i ∈ indicatorList db0 obj0.row.uuid, i ∉ db'.indicators) ∧
      (∀ p ∈ db'.plans, p.row.uuid ≠ obj0.row.uuid) ∧
      db'.actions = db0.actions := by
  obtain ⟨s, d, t, h⟩ : ∃ s d t, ActionPlan.destroy obj0 db0 = .ok (s, d, t) :=
    ⟨_, _, _, rfl⟩
  obtain ⟨h1, -, h3, h4, -, -⟩ := destroy_cascade_indicators_only obj0 db0 s d t h
  exact ⟨s, d, t, h, h1, h3, h4⟩

theorem exceptBind_eq_ok {ε α β : Type} {e : Except ε α} {f : α → Except ε β} {b : β} :
    Except.bind e f = .ok b ↔ ∃ a, e = .ok a ∧ f a = .ok b := by
  cases e with
  | error err => simp [Except.bind]
  | ok a => simp [Except.bind]

theorem indicatorList_set_actions (db : Db) (A : List ActionRow) (u : String) :
    indicatorList { db with actions := A } u = indicatorList db u := rfl

theorem planRowByUuid_set_ai (db : Db) (A : List ActionRow)
    (I : List EfficacyIndicatorRow) (u : String) :
    planRowByUuid { db with actions := A, indicators := I } u = planRowByUuid db u := rfl

theorem soft_delete_run {self : ActionPlanObj} {db : Db} {self' : ActionPlanObj}
    {db' : Db} {tr : List Event}
    (hu : FieldName.uuid ∉ self.changes)
    (h : ActionPlan.soft_delete self db = .ok (self', db', tr)) :
    ∃ ups,
      tr = (actionList db self.row.uuid).map (fun a => Event.softDeleteAction a.uuid)
        ++ (indicatorList db self.row.uuid).map (fun i => Event.softDeleteIndicator i.uuid)
        ++ [Event.updatePlan self.row.uuid ups, Event.softDeletePlanRow self.row.uuid] ∧
      (FieldName.state, Value.voptStr (some State.DELETED)) ∈ ups ∧
      (∀ a ∈ db'.actions, a.action_plan_uuid = self.row.uuid → a.deleted = true) ∧
      (∀ i ∈ db'.indicators, i.action_plan_uuid = self.row.uuid → i.deleted = true) ∧
      self'.row.state = some State.DELETED ∧
      self'.changes = [] ∧
      (∃ p ∈ db'.plans, p.row = self'.row ∧ p.deleted = true) := by
  simp only [ActionPlan.soft_delete, softDeleteActions, softDeleteActions_run,
    softDeleteIndicators, softDeleteIndicators_run, indicatorList_set_actions,
    List.nil_append, bind] at h
  rw [exceptBind_eq_ok] at h
  obtain ⟨⟨self2, db3, trS⟩, hsv, h⟩ := h
  simp only [] at h
  rw [exceptBind_eq_ok] at h
  obtain ⟨⟨db_obj, db4⟩, hsd, h⟩ := h
  simp only [from_db_object_false, Except.bind, Except.ok.injEq, Prod.mk.injEq] at h
  obtain ⟨hself, hdb, htr⟩ := h
  obtain ⟨r, hupd, hself2, htrS⟩ := save_eq_ok.mp hsv
  have hS1u : (setField self FieldName.state (Value.voptStr (some State.DELETED))).row.uuid
      = self.row.uuid := rfl
  have hch1 : (setField self FieldName.state (Value.voptStr (some State.DELETED))).changes
      = addChange FieldName.state self.changes := setField_changes rfl
  have huuid_not : FieldName.uuid ∉ (obj_get_changes
      (setField self FieldName.state (Value.voptStr (some State.DELETED)))).map Prod.fst := by
    rw [obj_get_changes_keys, hch1]
    exact not_mem_addChange (by decide) hu
  have hupd0 := hupd
  unfold dbUpdateActionPlan at hupd
  rw [planRowByUuid_set_ai] at hupd
  cases h0 : planRowByUuid db
      (setField self FieldName.state (Value.voptStr (some State.DELETED))).row.uuid with
  | none =>
    rw [h0] at hupd
    exact Except.noConfusion hupd
  | some r0 =>
    rw [h0] at hupd
    simp only [Except.ok.injEq, Prod.mk.injEq] at hupd
    obtain ⟨hfold, hdb3⟩ := hupd
    have hallv : ∀ v, (FieldName.state, v) ∈ obj_get_changes
        (setField self FieldName.state (Value.voptStr (some State.DELETED))) →
        v = Value.voptStr (some State.DELETED) := by
      intro v hv
      unfold obj_get_changes at hv
      obtain ⟨f, hf, heq⟩ := List.mem_map.mp hv
      rw [Prod.mk.injEq] at heq
      obtain ⟨hfe, hve⟩ := heq
      subst hfe
      rw [← hve]
      exact @getField_setField_eq self FieldName.state (Value.voptStr (some State.DELETED)) rfl
    have hmemst : (FieldName.state, Value.voptStr (some State.DELETED)) ∈ obj_get_changes
        (setField self FieldName.state (Value.voptStr (some State.DELETED))) := by
      unfold obj_get_changes
      refine List.mem_map.mpr ⟨FieldName.state, ?_, ?_⟩
      · rw [hch1]
        exact mem_addChange_self _ _
      · rw [@getField_setField_eq self FieldName.state (Value.voptStr (some State.DELETED)) rfl]
    have hstate : r.state = some State.DELETED := by
      have hg := foldl_applyUpdate_const
        (obj_get_changes (setField self FieldName.state (Value.voptStr (some State.DELETED))))
        r0 FieldName.state (Value.voptStr (some State.DELETED)) rfl rfl hallv (Or.inl hmemst)
      rw [hfold] at hg
      simp only [getRowField, Value.voptStr.injEq] at hg
      exact hg
    have hruuid : r.uuid = self.row.uuid := by
      have hg := foldl_applyUpdate_frame
        (obj_get_changes (setField self FieldName.state (Value.voptStr (some State.DELETED))))
        r0 FieldName.uuid huuid_not
      rw [hfold] at hg
      simp only [getRowField, Value.vuuid.injEq] at hg
      rw [hg]
      exact planRowByUuid_some_uuid h0
    have hpr3 : planRowByUuid db3 self.row.uuid = some r :=
      dbUpdate_planRowByUuid hupd0 hruuid
    have hself2row : self2.row = r := by rw [hself2]
    unfold dbSoftDeleteActionPlan at hsd
    rw [hself2row, hruuid, hpr3] at hsd
    simp only [Except.ok.injEq, Prod.mk.injEq] at hsd
    obtain ⟨hdbobj, hdb4⟩ := hsd
    have hrowself' : self'.row = r := by
      rw [← hself]
      show db_obj = r
      exact hdbobj.symm
    refine ⟨obj_get_changes (setField self FieldName.state (Value.voptStr (some State.DELETED))),
      ?_, hmemst, ?_, ?_, ?_, ?_, ?_⟩
    · rw [← htr, htrS, hself2row, hruuid]
      simp [List.append_assoc, hS1u]
    · intro a ha hm
      rw [← hdb, ← hdb4, ← hdb3] at ha
      exact soft_deleted_actions_complete db self.row.uuid a ha hm
    · intro i hi hm
      rw [← hdb, ← hdb4, ← hdb3] at hi
      exact soft_deleted_indicators_complete db self.row.uuid i hi hm
    · rw [hrowself']
      exact hstate
    · rw [← hself]
      rfl
    · unfold planRowByUuid at hpr3
      cases hfind3 : db3.plans.find? (fun p => !p.deleted && p.row.uuid == self.row.uuid) with
      | none =>
        rw [hfind3] at hpr3
        cases hpr3
      | some q0 =>
        rw [hfind3] at hpr3
        simp only [Option.map_some', Option.some.injEq] at hpr3
        have hq0mem : q0 ∈ db3.plans := List.mem_of_find?_eq_some hfind3
        have hq0pred := List.find?_some hfind3
        refine ⟨{ q0 with deleted := true }, ?_, ?_, rfl⟩
        · rw [← hdb, ← hdb4]
          exact List.mem_map.mpr ⟨q0, hq0mem, by rw [if_pos hq0pred]⟩
        · show q0.row = self'.row
          rw [hpr3, hrowself']

/-- C1: `soft_delete` first soft-deletes every related Action, then every
related EfficacyIndicator, and only after all dependents are handled does it
set the plan's own state to DELETED and persist it via `save`, then issue the
storage-level soft-delete on the plan's row and re-hydrate `self` from the
returned row; the dependents' soft-delete calls observably precede the plan's
state-persisting `save`. -/
theorem soft_delete_cascade_order (self : ActionPlanObj) (db : Db) (self' : ActionPlanObj)
    (db' : Db) (tr : List Event)
    (hu : FieldName.uuid ∉ self.changes)
    (h : ActionPlan.soft_delete self db = .ok (self', db', tr)) :
    ∃ ups,
      tr = (actionList db self.row.uuid).map (fun a => Event.softDeleteAction a.uuid)
        ++ (indicatorList db self.row.uuid).map (fun i => Event.softDeleteIndicator i.uuid)
        ++ [Event.updatePlan self.row.uuid ups, Event.softDeletePlanRow self.row.uuid] ∧
      (FieldName.state, Value.voptStr (some State.DELETED)) ∈ ups ∧
      (∀ a ∈ db'.actions, a.action_plan_uuid = self.row.uuid → a.deleted = true) ∧
      (∀ i ∈ db'.indicators, i.action_plan_uuid = self.row.uuid → i.deleted = true) ∧
      self'.row.state = some State.DELETED ∧
      (∃ p ∈ db'.plans, p.row = self'.row ∧ p.deleted = true) := by
  obtain ⟨ups, h1, h2, h3, h4, h5, -, h7⟩ := soft_delete_run hu h
  exact ⟨ups, h1, h2, h3, h4, h5, h7⟩

/-- Witness for C1: soft-deleting the concrete plan with two related Actions
and two related EfficacyIndicators produces the expected event order and the
DELETED end state. -/
theorem soft_delete_cascade_order_witness :
    FieldName.uuid ∉ obj0.changes ∧
    ∃ self' db' tr ups, ActionPlan.soft_delete obj0 db0 = .ok (self', db', tr) ∧
      tr = (actionList db0 obj0.row.uuid).map (fun a => Event.softDeleteAction a.uuid)
        ++ (indicatorList db0 obj0.row.uuid).map (fun i => Event.softDeleteIndicator i.uuid)
        ++ [Event.updatePlan obj0.row.uuid ups, Event.softDeletePlanRow obj0.row.uuid] ∧
      self'.row.state = some State.DELETED := by
  refine ⟨by decide, ?_⟩
  obtain ⟨s, d, t, h⟩ : ∃ s d t, ActionPlan.soft_delete obj0 db0 = .ok (s, d, t) :=
    ⟨_, _, _, rfl⟩
  obtain ⟨ups, h1, -, -, -, h5, -⟩ := soft_delete_cascade_order obj0 db0 s d t (by decide) h
  exact ⟨s, d, t, ups, h, h1, h5⟩

/-- C7: `soft_delete` always forces the plan's state to DELETED regardless of
prior state, and the only state value this core itself persists (DELETED) is
drawn from the closed seven-value set. -/
theorem soft_delete_forces_deleted_state (self : ActionPlanObj) (db : Db)
    (self' : ActionPlanObj) (db' : Db) (tr : List Event)
    (hu : FieldName.uuid ∉ self.changes)
    (h : ActionPlan.soft_delete self db = .ok (self', db', tr)) :
    self'.row.state = some State.DELETED ∧
    State.DELETED ∈ State.values ∧
    State.values = ["RECOMMENDED", "PENDING", "ONGOING", "FAILED", "SUCCEEDED",
      "DELETED", "CANCELLED"] := by
  obtain ⟨-, -, -, -, -, h5, -, -⟩ := soft_delete_run hu h
  exact ⟨h5, by decide, rfl⟩

/-- Witness for C7: the concrete plan starts PENDING and ends DELETED. -/
theorem soft_delete_forces_deleted_state_witness :
    FieldName.uuid ∉ obj0.changes ∧
    obj0.row.state = some State.PENDING ∧
    ∃ self' db' tr, ActionPlan.soft_delete obj0 db0 = .ok (self', db', tr) ∧
      self'.row.state = some State.DELETED := by
  refine ⟨by decide, rfl, ?_⟩
  obtain ⟨s, d, t, h⟩ : ∃ s d t, ActionPlan.soft_delete obj0 db0 = .ok (s, d, t) :=
    ⟨_, _, _, rfl⟩
  exact ⟨s, d, t, h, (soft_delete_forces_deleted_state obj0 db0 s d t (by decide) h).1⟩

end Watcher
